import Mathlib

/-!
# Verification of the m3u8 download core of MoonTV-Plus

Shallow embedding of `src/lib/utils.ts`: playlist parsing and URL
resolution (`parseM3u8`), the bounded-concurrency retrying segment
scheduler inside `downloadVideo`, buffer assembly (`mergeArrayBuffers`),
series sequencing (`downloadPlaylist`) and the image-proxy helpers
(`getImageProxyUrl` / `processImageUrl`).

Byte buffers (`ArrayBuffer`) are modelled as `List Nat`; JavaScript's
single-threaded event loop with interleaving at `await` points is
modelled by a small-step relation on a scheduler state, where each
constructor is one atomic (no intervening `await`) segment of
`processTask`.

All string primitives (`trim`, `startsWith`, `includes`, `split`) are
implemented structurally over `List Char` so that every definition
reduces inside the kernel.
-/

namespace MoonTV

/-! ## String helpers (JavaScript string primitives) -/

/-- `String.prototype.trim`: strip whitespace from both ends. -/
def jsTrim (s : String) : String :=
  ⟨((s.data.dropWhile Char.isWhitespace).reverse.dropWhile Char.isWhitespace).reverse⟩

/-- `s.startsWith(p)`. -/
def jsStartsWith (s p : String) : Bool :=
  p.data.isPrefixOf s.data

/-- Does the character list `cs` contain `pat` as a contiguous sublist? -/
def listContainsSub (pat : List Char) : List Char → Bool
  | [] => pat.isEmpty
  | c :: rest => pat.isPrefixOf (c :: rest) || listContainsSub pat rest

/-- `s.includes(pat)` (JavaScript substring containment). -/
def containsSub (s pat : String) : Bool :=
  listContainsSub pat.data s.data

/-- `text.split('\n')` on character lists. -/
def splitNl : List Char → List (List Char)
  | [] => [[]]
  | c :: rest =>
    if c = '\n' then [] :: splitNl rest
    else
      match splitNl rest with
      | [] => [[c]]
      | h :: t => (c :: h) :: t

/-- `text.split('\n')` on strings. -/
def jsSplitLines (s : String) : List String :=
  (splitNl s.data).map fun l => ⟨l⟩

/-- `url.substring(0, url.lastIndexOf('/') + 1)`: the prefix of `s` up to and
including its last `/` (empty when `s` has no slash). -/
def lastSlashPrefix (s : String) : String :=
  ⟨((s.data.reverse.dropWhile (fun c => !(c = '/'))).reverse)⟩

/-- Split a character list at the first occurrence of `://`, returning the
text before it and the text after it. -/
def splitScheme : List Char → Option (List Char × List Char)
  | [] => none
  | c :: rest =>
    if [':', '/', '/'].isPrefixOf (c :: rest) then some ([], rest.drop 2)
    else
      match splitScheme rest with
      | none => none
      | some (b, a) => some (c :: b, a)

/-- `new URL(u).protocol + "//" + new URL(u).host` for a well-formed
absolute `http(s)` URL written with lowercase scheme and host and no
default port: the scheme, `://`, and the authority up to the first
path/query/fragment delimiter. -/
def schemeHost (url : String) : String :=
  match splitScheme url.data with
  | none => url
  | some (s, rest) =>
    ⟨s⟩ ++ "://" ++ ⟨rest.takeWhile (fun c => !(c = '/' || c = '?' || c = '#'))⟩

/-- The locator-resolution rule `parseM3u8` applies to every rendition URL
line and every segment line (after trimming): lines starting with `http`
are kept as-is, lines starting with `/` are joined to the document's
scheme+host, all other lines are joined to the document's directory. -/
def resolveUrl (docUrl line : String) : String :=
  if jsStartsWith line "http" then line
  else if jsStartsWith line "/" then schemeHost docUrl ++ line
  else lastSlashPrefix docUrl ++ line

/-- The resolution rule as the specification words it: an *absolute URL*
(one containing `://`) is returned unchanged; a line starting with `/` is
resolved against scheme+host; any other line is resolved against the
document's directory. Written from the spec only, for comparison with
`resolveUrl` (which is translated from the code). -/
def specResolveUrl (docUrl line : String) : String :=
  if containsSub line "://" then line
  else if jsStartsWith line "/" then schemeHost docUrl ++ line
  else lastSlashPrefix docUrl ++ line

/-! ## parseM3u8: playlist parsing -/

/-- Numeric value of a digit run (`parseInt(ds, 10)` on a nonempty string of
decimal digits). -/
def parseDigits (ds : List Char) : Nat :=
  ds.foldl (fun a c => a * 10 + (c.toNat - 48)) 0

/-- First match of the regular expression `/BANDWIDTH=(\d+)/`: scan for the
first position where `BANDWIDTH=` is followed by at least one digit and
return the value of the maximal digit run there. -/
def findBandwidth : List Char → Option Nat
  | [] => none
  | c :: rest =>
    let ds := ((c :: rest).drop 10).takeWhile Char.isDigit
    if "BANDWIDTH=".data.isPrefixOf (c :: rest) && !ds.isEmpty then
      some (parseDigits ds)
    else findBandwidth rest

/-- `bandwidthMatch ? parseInt(bandwidthMatch[1], 10) : 0` applied to a
(trimmed) `#EXT-X-STREAM-INF` line. -/
def bandwidthOf (line : String) : Nat :=
  (findBandwidth line.data).getD 0

/-- The master-playlist scan of `parseM3u8` (`qualityPlaylists`): walk the
line list; at each (trimmed) line starting with `#EXT-X-STREAM-INF` whose
following line exists, trims nonempty and does not start with `#`, record
`(bandwidth, resolved playlist URL)`. Entries appear in file order. -/
def collectRenditions (m3u8Url : String) : List String → List (Nat × String)
  | [] => []
  | [_] => []
  | l :: l2 :: rest =>
    let t := jsTrim l
    let recur := collectRenditions m3u8Url (l2 :: rest)
    if jsStartsWith t "#EXT-X-STREAM-INF" then
      let n := jsTrim l2
      if !(n = "") && !(jsStartsWith n "#") then
        (bandwidthOf t, resolveUrl m3u8Url n) :: recur
      else recur
    else recur

/-- The ordering of `(a, b) => b.quality - a.quality`: descending
bandwidth. -/
def qualityGe (a b : Nat × String) : Prop := b.1 ≤ a.1

instance : DecidableRel qualityGe := fun a b => Nat.decLe b.1 a.1

instance : IsTotal (Nat × String) qualityGe := ⟨fun a b => Nat.le_total b.1 a.1⟩

instance : IsTrans (Nat × String) qualityGe :=
  ⟨fun _ _ _ h h' => Nat.le_trans h' h⟩

/-- `qualityPlaylists.sort((a, b) => b.quality - a.quality)`: JavaScript's
stable sort with a descending comparator, modelled as stable insertion
sort by descending bandwidth. -/
def sortByQualityDesc (l : List (Nat × String)) : List (Nat × String) :=
  List.insertionSort qualityGe l

/-- The media-playlist scan of `parseM3u8` (`tsUrls`): every line whose trim
is nonempty and does not start with `#` is resolved to an absolute segment
URL, in file order. -/
def segmentUrls (m3u8Url : String) (lines : List String) : List String :=
  (lines.map jsTrim).filterMap fun t =>
    if !(t = "") && !(jsStartsWith t "#") then some (resolveUrl m3u8Url t)
    else none

/-- `parseM3u8(m3u8Url)`. The network is an oracle `fetchText` from URL to
document text (`none` = network failure). The JavaScript original has no
recursion bound; the `fuel` argument is an artifact of the embedding and
every theorem supplies enough fuel for the playlists involved. Thrown
errors become `Except.error` carrying the JavaScript message; note that the
recursive call sits inside the `try`, so its error message is wrapped a
second time, exactly as in the source. -/
def parseM3u8 (fetchText : String → Option String) : Nat → String → Except String (List String)
  | 0, _ => Except.error "解析m3u8失败: 递归超限"
  | fuel + 1, m3u8Url =>
    match fetchText m3u8Url with
    | none => Except.error "解析m3u8失败: fetch failed"
    | some text =>
      if containsSub text "#EXT-X-STREAM-INF" then
        let qualityPlaylists := collectRenditions m3u8Url (jsSplitLines text)
        match sortByQualityDesc qualityPlaylists with
        | [] => Except.error "解析m3u8失败: 未找到清晰度播放列表"
        | best :: _ =>
          match parseM3u8 fetchText fuel best.2 with
          | Except.error e => Except.error ("解析m3u8失败: " ++ e)
          | Except.ok r => Except.ok r
      else
        Except.ok (segmentUrls m3u8Url (jsSplitLines text))

/-! ## mergeArrayBuffers: buffer assembly -/

/-- An `ArrayBuffer`: a byte sequence. -/
abbrev Buf := List Nat

/-- A `Blob`: its byte content and its MIME type. -/
structure Blob where
  data : List Nat
  type : String
deriving DecidableEq

/-- `Uint8Array.prototype.set(src, offset)`: overwrite `dst` with `src`
starting at `offset` (in `mergeArrayBuffers` the write always fits). -/
def uint8Set (dst : List Nat) (src : List Nat) (offset : Nat) : List Nat :=
  dst.take offset ++ src ++ dst.drop (offset + src.length)

/-- `buffers.reduce((acc, buffer) => acc + buffer.byteLength, 0)`. -/
def totalByteLength (buffers : List Buf) : Nat :=
  buffers.foldl (fun acc buffer => acc + buffer.length) 0

/-- `mergeArrayBuffers(buffers)`: allocate a zeroed `Uint8Array` of the total
size, copy each buffer at a running offset, and wrap the result in a Blob
with the fixed type `video/mp4`. -/
def mergeArrayBuffers (buffers : List Buf) : Blob :=
  let totalSize := totalByteLength buffers
  let result := List.replicate totalSize 0
  let final :=
    buffers.foldl (fun st buffer => (uint8Set st.1 buffer st.2, st.2 + buffer.length)) (result, 0)
  ⟨final.1, "video/mp4"⟩

/-! ## The segment download scheduler inside downloadVideo

`downloadInParallel` spawns `min(maxConcurrent, tsUrls.length)` calls of
`processTask`, all sharing `taskQueue`, `tsBuffers`, `downloadedCount` and
the abort signal. JavaScript interleaves these workers only at `await`
points, so each synchronous segment of `processTask` is one atomic step:

* `claim`     — the abort check, `taskQueue.shift()` and the start of
                `downloadTsSegment` (lines 448-459);
* `succeed`   — the continuation after a successful fetch: store the buffer
                at the task's index, `downloadedCount++`, invoke
                `onProgress` (lines 460-469);
* `fail`      — the `catch` with the signal not aborted:
                `taskQueue.unshift([index, tsUrl])` (lines 473-479);
* `failAborted` — the `catch` with the signal aborted: plain return;
* `abort`     — the caller sets the one-way abort signal.

The network is an oracle `fetch index attempt ↦ some bytes / none`; the
`attempts` field records, per index, how many fetches have started, so the
attempt number identifies each fetch. `fetchesStarted` counts every call
of `downloadTsSegment`. The model does not bound the number of workers:
it admits every interleaving of at most `tsUrls.length` workers and more,
so invariants proved over it hold for the pool the code spawns. -/

/-- Network oracle: `fetch i k` is the outcome of the `k`-th (0-based)
invocation of `downloadTsSegment` for segment index `i`. -/
abbrev Oracle := Nat → Nat → Option Buf

/-- The shared mutable state of `downloadInParallel`. -/
structure DLState where
  queue : List (Nat × String)
  inflight : List (Nat × Nat × String)
  tsBuffers : List (Option Buf)
  downloadedCount : Nat
  attempts : List Nat
  progressLog : List (Nat × Nat × Nat)
  fetchesStarted : Nat
  aborted : Bool
deriving DecidableEq

/-- `Math.round(current / total * 100)` on exact rationals:
`⌊current·100/total + 1/2⌋`. -/
def jsRoundPct (current total : Nat) : Nat :=
  (200 * current + total) / (2 * total)

/-- The state right after the task queue is seeded (lines 439-444): every
index paired with its URL in index order, all buffer slots empty. -/
def initState (tsUrls : List String) : DLState where
  queue := tsUrls.enum
  inflight := []
  tsBuffers := List.replicate tsUrls.length none
  downloadedCount := 0
  attempts := List.replicate tsUrls.length 0
  progressLog := []
  fetchesStarted := 0
  aborted := false

/-- One atomic step of the scheduler (see the section comment). -/
inductive Step (fetch : Oracle) (total : Nat) : DLState → DLState → Prop
  | claim (s : DLState) (i : Nat) (u : String) (q : List (Nat × String))
      (hab : s.aborted = false) (hq : s.queue = (i, u) :: q) :
      Step fetch total s
        { s with queue := q
               , inflight := (i, s.attempts.getD i 0, u) :: s.inflight
               , attempts := s.attempts.set i (s.attempts.getD i 0 + 1)
               , fetchesStarted := s.fetchesStarted + 1 }
  | succeed (s : DLState) (l1 l2 : List (Nat × Nat × String)) (i k : Nat) (u : String) (b : Buf)
      (hin : s.inflight = l1 ++ (i, k, u) :: l2) (hf : fetch i k = some b) :
      Step fetch total s
        { s with inflight := l1 ++ l2
               , tsBuffers := s.tsBuffers.set i (some b)
               , downloadedCount := s.downloadedCount + 1
               , progressLog := s.progressLog ++
                   [(jsRoundPct (s.downloadedCount + 1) total, s.downloadedCount + 1, total)] }
  | fail (s : DLState) (l1 l2 : List (Nat × Nat × String)) (i k : Nat) (u : String)
      (hin : s.inflight = l1 ++ (i, k, u) :: l2) (hf : fetch i k = none)
      (hab : s.aborted = false) :
      Step fetch total s { s with inflight := l1 ++ l2, queue := (i, u) :: s.queue }
  | failAborted (s : DLState) (l1 l2 : List (Nat × Nat × String)) (i k : Nat) (u : String)
      (hin : s.inflight = l1 ++ (i, k, u) :: l2) (hf : fetch i k = none)
      (hab : s.aborted = true) :
      Step fetch total s { s with inflight := l1 ++ l2 }
  | abort (s : DLState) (hab : s.aborted = false) :
      Step fetch total s { s with aborted := true }

/-- States reachable by the scheduler started on `tsUrls`. -/
inductive Reach (fetch : Oracle) (tsUrls : List String) : DLState → Prop
  | init : Reach fetch tsUrls (initState tsUrls)
  | step {s t : DLState} : Reach fetch tsUrls s → Step fetch tsUrls.length s t →
      Reach fetch tsUrls t

/-- All workers have exited: nothing is in flight, and the last worker saw
an empty queue or the abort signal. -/
def Terminal (s : DLState) : Prop :=
  s.inflight = [] ∧ (s.queue = [] ∨ s.aborted = true)

/-! ## downloadVideo: outcome after the scheduler -/

/-- The observable outcome of one `downloadVideo` call: the blob handed to
`saveBlobToFile` together with its filename, a thrown error message, or the
silent return taken when the signal is aborted. -/
inductive DVResult where
  | saved (blob : Blob) (filename : String)
  | failed (msg : String)
  | silent
deriving DecidableEq

/-- `undefined` slots never reach `mergeArrayBuffers` in the saved path;
this totalizes the cast `tsBuffers as ArrayBuffer[]`. -/
def bufOrEmpty : Option Buf → Buf
  | none => []
  | some b => b

/-- Lines 489-514: after `await Promise.all(activeTasks)`. If every slot is
filled the blob is merged and saved (even under an abort that arrived after
completion); otherwise `'部分ts分片下载失败'` is thrown, which the outer
catch turns into a silent return when the signal is aborted and into the
wrapped `'下载视频失败: …'` error otherwise. -/
def finishDownload (filename : String) (s : DLState) : DVResult :=
  if s.tsBuffers.all Option.isSome then
    DVResult.saved (mergeArrayBuffers (s.tsBuffers.map bufOrEmpty)) filename
  else if s.aborted then DVResult.silent
  else DVResult.failed "下载视频失败: 部分ts分片下载失败"

/-- A complete run of the scheduler part of `downloadVideo` (lines 433-505),
related to its outcome and to the number of `downloadTsSegment` calls it
started. `abortedEarly` is the guard at line 435: the signal is already
aborted when `downloadInParallel` starts, no worker is spawned, and the
merge of the all-`undefined` array throws a `TypeError` that the outer
catch silences. -/
inductive DVRun (fetch : Oracle) (tsUrls : List String) (filename : String) :
    DVResult → Nat → Prop
  | abortedEarly (h : tsUrls ≠ []) : DVRun fetch tsUrls filename DVResult.silent 0
  | normal {s : DLState} (hr : Reach fetch tsUrls s) (ht : Terminal s) :
      DVRun fetch tsUrls filename (finishDownload filename s) s.fetchesStarted

/-- A complete run of `downloadVideo` (lines 414-515). `parse` is the result
of `parseM3u8`, `ab` is the value of `signal.aborted` at the outer catch
for the two failure paths that precede the scheduler. -/
inductive DVExec (fetch : Oracle) (parse : Except String (List String))
    (filename : String) (ab : Bool) : DVResult → Nat → Prop
  | parseError (msg : String) (h : parse = Except.error msg) :
      DVExec fetch parse filename ab
        (if ab then DVResult.silent else DVResult.failed ("下载视频失败: " ++ msg)) 0
  | emptyPlaylist (h : parse = Except.ok []) :
      DVExec fetch parse filename ab
        (if ab then DVResult.silent else DVResult.failed "下载视频失败: 未找到ts分片") 0
  | run {tsUrls : List String} {r : DVResult} {n : Nat}
      (h : parse = Except.ok tsUrls) (hne : tsUrls ≠ [])
      (hr : DVRun fetch tsUrls filename r n) :
      DVExec fetch parse filename ab r n

/-! ## downloadPlaylist: series sequencing -/

/-- The observable outcome of `downloadPlaylist`: normal completion, a
thrown error, or the silent return on cancellation — each carrying the
`(blob, filename)` pairs already handed to the output sink. -/
inductive DPResult where
  | done (delivered : List (Blob × String))
  | failed (msg : String) (delivered : List (Blob × String))
  | silent (delivered : List (Blob × String))
deriving DecidableEq

/-- Line 547-548: the output name of episode `i` (0-based):
`${baseFilename} - ${titles[i] || `第${i+1}集`}.mp4`. -/
def episodeFilename (titles : List String) (baseFilename : String) (i : Nat) : String :=
  let title := if titles.getD i "" = "" then "第" ++ toString (i + 1) ++ "集" else titles.getD i ""
  baseFilename ++ " - " ++ title ++ ".mp4"

/-- The loop of `downloadPlaylist` (lines 540-562), parametrized by the
outcome `exec i` of the `downloadVideo` call for episode `i`. A saved
episode delivers its blob to the sink and the loop moves on; a thrown
episode aborts the series with the wrapped `'下载合集失败: …'` error
(`downloadVideo` only throws with the signal not aborted, so the catch at
line 565 rethrows); a silent episode means the one-way signal is aborted,
so the loop's own check at line 542 returns on the next iteration. -/
def dpRun (exec : Nat → DVResult) (n : Nat) : Nat → List (Blob × String) → DPResult
  | i, acc =>
    if _h : i < n then
      match exec i with
      | DVResult.saved b fn => dpRun exec n (i + 1) (acc ++ [(b, fn)])
      | DVResult.failed m => DPResult.failed ("下载合集失败: " ++ m) acc
      | DVResult.silent => DPResult.silent acc
    else DPResult.done acc
termination_by i => n - i

/-- `downloadPlaylist(episodes, titles, baseFilename, …)`: run the loop over
all episodes from the first. -/
def downloadPlaylistRun (exec : Nat → DVResult) (episodes : List String) : DPResult :=
  dpRun exec episodes.length 0 []

/-! ## Image proxy configuration (getImageProxyUrl / processImageUrl) -/

/-- The characters `encodeURIComponent` leaves unescaped:
`A-Z a-z 0-9 - _ . ! ~ * ' ( )`. -/
def isUriUnreserved (c : Char) : Bool :=
  c.isAlphanum || c = '-' || c = '_' || c = '.' || c = '!' || c = '~' ||
    c = '*' || c = Char.ofNat 39 || c = '(' || c = ')'

/-- UTF-8 encoding of one (non-surrogate) code point. -/
def utf8Bytes (c : Char) : List Nat :=
  let n := c.toNat
  if n < 128 then [n]
  else if n < 2048 then [192 + n / 64, 128 + n % 64]
  else if n < 65536 then [224 + n / 4096, 128 + n / 64 % 64, 128 + n % 64]
  else [240 + n / 262144, 128 + n / 4096 % 64, 128 + n / 64 % 64, 128 + n % 64]

/-- Uppercase hexadecimal digit. -/
def hexDigit (n : Nat) : Char :=
  if n < 10 then Char.ofNat (48 + n) else Char.ofNat (55 + n)

/-- `%HH` escape of one byte. -/
def pctByte (b : Nat) : List Char :=
  ['%', hexDigit (b / 16), hexDigit (b % 16)]

/-- `encodeURIComponent(s)`: unreserved characters pass through, everything
else is percent-encoded byte-by-byte in UTF-8. -/
def encodeURIComponent (s : String) : String :=
  ⟨(s.data.map fun c =>
      if isUriUnreserved c then [c] else (utf8Bytes c).flatMap pctByte).flatten⟩

/-- The browser environment `getImageProxyUrl` reads: whether a `window`
object exists, the JSON-parsed `localStorage` entries `enableImageProxy`
and `imageProxyUrl` (`none` = key absent), and
`window.RUNTIME_CONFIG?.IMAGE_PROXY` (`none` = absent/undefined). -/
structure ProxyEnv where
  hasWindow : Bool
  enableImageProxy : Option Bool
  imageProxyUrl : Option String
  runtimeImageProxy : Option String

/-- `getImageProxyUrl()` (lines 8-29): no proxy without a window; an
explicitly falsy `enableImageProxy` disables the proxy; a present
`imageProxyUrl` is used (trimmed) when nonblank and otherwise yields no
proxy — the system default is consulted only when the key is absent. -/
def getImageProxyUrl (e : ProxyEnv) : Option String :=
  if e.hasWindow = false then none
  else
    match e.enableImageProxy with
    | some false => none
    | _ =>
      match e.imageProxyUrl with
      | some localImageProxy =>
        if jsTrim localImageProxy = "" then none else some (jsTrim localImageProxy)
      | none =>
        match e.runtimeImageProxy with
        | some serverImageProxy =>
          if serverImageProxy = "" then none
          else if jsTrim serverImageProxy = "" then none
          else some (jsTrim serverImageProxy)
        | none => none

/-- `processImageUrl(originalUrl)` (lines 34-41). -/
def processImageUrl (e : ProxyEnv) (originalUrl : String) : String :=
  if originalUrl = "" then originalUrl
  else
    match getImageProxyUrl e with
    | none => originalUrl
    | some proxyUrl => proxyUrl ++ encodeURIComponent originalUrl

/-! ## Bookkeeping used by the scheduler invariants -/

/-- Number of queue entries carrying segment index `i`. -/
def occQ (q : List (Nat × String)) (i : Nat) : Nat :=
  q.countP fun t => t.1 == i

/-- Number of in-flight fetches carrying segment index `i`. -/
def occF (fl : List (Nat × Nat × String)) (i : Nat) : Nat :=
  fl.countP fun t => t.1 == i

/-- 1 when buffer slot `i` is filled, 0 otherwise. -/
def slotFill (bufs : List (Option Buf)) (i : Nat) : Nat :=
  if (bufs.getD i none).isSome then 1 else 0

/-- Number of filled buffer slots. -/
def countFilled (bufs : List (Option Buf)) : Nat :=
  bufs.countP fun b => b.isSome

/-- Total number of places (queue, in flight, buffer slot) where segment
`i` currently lives. -/
def taskOcc (s : DLState) (i : Nat) : Nat :=
  occQ s.queue i + occF s.inflight i + slotFill s.tsBuffers i

/-- The progress-callback calls the scheduler has made after `count`
successful fetches, in chronological order: the `j`-th call reports
`(round((j+1)/total·100), j+1, total)`. -/
def expectedProgressLog (count total : Nat) : List (Nat × Nat × Nat) :=
  (List.range count).map fun j => (jsRoundPct (j + 1) total, j + 1, total)

/-- The inductive invariant of the scheduler. -/
structure Inv (fetch : Oracle) (tsUrls : List String) (s : DLState) : Prop where
  lenB : s.tsBuffers.length = tsUrls.length
  qIdx : ∀ t ∈ s.queue, t.1 < tsUrls.length
  fIdx : ∀ t ∈ s.inflight, t.1 < tsUrls.length
  occLe : ∀ i, i < tsUrls.length → taskOcc s i ≤ 1
  occEq : s.aborted = false → ∀ i, i < tsUrls.length → taskOcc s i = 1
  cnt : s.downloadedCount = countFilled s.tsBuffers
  prog : s.progressLog = expectedProgressLog s.downloadedCount tsUrls.length
  content : ∀ i b, s.tsBuffers.getD i none = some b → ∃ k, fetch i k = some b

/-! ## A concrete scenario (used to instantiate the theorems)

Two segments; segment 0 fails on its first attempt and succeeds on its
second, segment 1 succeeds at once. -/

def exUrls : List String := ["http://h/p/a.ts", "http://h/p/b.ts"]

def exFetch : Oracle
  | 0, 0 => none
  | 0, 1 => some [7]
  | 1, 0 => some [8, 9]
  | _, _ => none

/-- The state after the interleaving: claim 0, claim 1, fail 0 (requeued at
the front), succeed 1, claim 0 again, succeed 0. -/
def exFinal : DLState where
  queue := []
  inflight := []
  tsBuffers := [some [7], some [8, 9]]
  downloadedCount := 2
  attempts := [2, 1]
  progressLog := [(50, 1, 2), (100, 2, 2)]
  fetchesStarted := 3
  aborted := false

/-- The scenario state after claim 0, claim 1, fail 0, abort: segment 1 is
still in flight while the signal is already set. -/
def exMidAborted : DLState where
  queue := [(0, "http://h/p/a.ts")]
  inflight := [(1, 0, "http://h/p/b.ts")]
  tsBuffers := [none, none]
  downloadedCount := 0
  attempts := [1, 1]
  progressLog := []
  fetchesStarted := 2
  aborted := true

/-- A state of the same scenario where the caller aborts while segment 0 is
still queued: claim 0, claim 1, fail 0, abort, succeed 1. -/
def exAborted : DLState where
  queue := [(0, "http://h/p/a.ts")]
  inflight := []
  tsBuffers := [none, some [8, 9]]
  downloadedCount := 1
  attempts := [1, 1]
  progressLog := [(50, 1, 2)]
  fetchesStarted := 2
  aborted := true

/-- The scenario state after claim 0, claim 1: both segments in flight. -/
def exMid2 : DLState where
  queue := []
  inflight := [(1, 0, "http://h/p/b.ts"), (0, 0, "http://h/p/a.ts")]
  tsBuffers := [none, none]
  downloadedCount := 0
  attempts := [1, 1]
  progressLog := []
  fetchesStarted := 2
  aborted := false

/-- A network whose every playlist has comment lines only. -/
def exEmptyFt : String → Option String := fun _ => some "#EXTM3U\n#EXT-X-ENDLIST"

/-- A concrete two-rendition master playlist document. -/
def exMasterText : String :=
  "#EXTM3U\n#EXT-X-STREAM-INF:BANDWIDTH=500000,RESOLUTION=640x360\nlow/index.m3u8\n#EXT-X-STREAM-INF:BANDWIDTH=1500000\n/p/index.m3u8"

/-- A network serving the master playlist and its best rendition. -/
def exMasterFt : String → Option String := fun u =>
  if u = "http://cdn/master.m3u8" then some exMasterText
  else if u = "http://cdn/p/index.m3u8" then some "#EXTM3U\na.ts\nb.ts"
  else none

/-- Per-episode outcomes for a two-episode series whose second episode
fails. -/
def exExecFail : Nat → DVResult
  | 0 => DVResult.saved ⟨[7, 8, 9], "video/mp4"⟩ "Show - 第1集.mp4"
  | _ => DVResult.failed "下载视频失败: 部分ts分片下载失败"

/-- Per-episode outcomes for a two-episode series cancelled during the
second episode. -/
def exExecSilent : Nat → DVResult
  | 0 => DVResult.saved ⟨[7, 8, 9], "video/mp4"⟩ "Show - 第1集.mp4"
  | _ => DVResult.silent

/-! ## List helper lemmas -/

lemma getD_set_self {α : Type} (l : List α) {i : Nat} (a d : α) (h : i < l.length) :
    (l.set i a).getD i d = a := by
  rw [List.getD_eq_getElem?_getD, List.getElem?_set_self h]
  rfl

lemma getD_set_ne {α : Type} (l : List α) {i j : Nat} (a d : α) (h : i ≠ j) :
    (l.set i a).getD j d = l.getD j d := by
  rw [List.getD_eq_getElem?_getD, List.getElem?_set_ne h, ← List.getD_eq_getElem?_getD]

lemma getD_replicate_none {α : Type} (n i : Nat) :
    (List.replicate n (none : Option α)).getD i none = none := by
  rw [List.getD_eq_getElem?_getD, List.getElem?_replicate]
  by_cases h : i < n <;> simp [h]

lemma countFilled_set_some :
    ∀ (l : List (Option Buf)) (i : Nat) (b : Buf), i < l.length →
      l.getD i none = none → countFilled (l.set i (some b)) = countFilled l + 1
  | [], i, b, h, _ => absurd h (by simp)
  | x :: xs, 0, b, _, hnone => by
    have hx : x = none := by simpa [List.getD] using hnone
    subst hx
    simp [countFilled, List.countP_cons]
  | x :: xs, i + 1, b, h, hnone => by
    have hi : i < xs.length := by simpa using h
    have hn : xs.getD i none = none := by simpa [List.getD] using hnone
    simp only [List.set, countFilled, List.countP_cons]
    have := countFilled_set_some xs i b hi hn
    simp only [countFilled] at this
    omega

lemma countFilled_le_length (l : List (Option Buf)) : countFilled l ≤ l.length :=
  List.countP_le_length _

lemma all_isSome_getD (l : List (Option Buf)) (hall : l.all Option.isSome = true)
    {i : Nat} (h : i < l.length) : ∃ b, l.getD i none = some b := by
  rw [List.getD_eq_getElem?_getD, List.getElem?_eq_getElem h]
  have hmem : l[i] ∈ l := List.getElem_mem h
  have hsome := List.all_eq_true.mp hall _ hmem
  obtain ⟨b, hb⟩ := Option.isSome_iff_exists.mp hsome
  exact ⟨b, by simp [hb]⟩

lemma eq_of_getD_eq (l₁ l₂ : List (Option Buf)) (hlen : l₁.length = l₂.length)
    (h : ∀ i, i < l₁.length → l₁.getD i none = l₂.getD i none) : l₁ = l₂ := by
  apply List.ext_getElem hlen
  intro i h₁ h₂
  have := h i h₁
  rwa [List.getD_eq_getElem?_getD, List.getD_eq_getElem?_getD,
    List.getElem?_eq_getElem h₁, List.getElem?_eq_getElem h₂] at this

/-! ## mergeArrayBuffers lemmas -/

lemma totalByteLength_aux (l : List Buf) :
    ∀ n : Nat, l.foldl (fun acc buffer => acc + buffer.length) n
      = n + (l.map List.length).sum := by
  induction l with
  | nil => intro n; simp
  | cons b bs ih => intro n; simp [List.foldl_cons, ih, Nat.add_assoc]

lemma totalByteLength_eq_sum (l : List Buf) :
    totalByteLength l = (l.map List.length).sum := by
  simpa using totalByteLength_aux l 0

lemma merge_fold (buffers : List Buf) :
    ∀ done : List Nat,
      (buffers.foldl (fun st buffer => (uint8Set st.1 buffer st.2, st.2 + buffer.length))
        (done ++ List.replicate (totalByteLength buffers) 0, done.length))
      = (done ++ buffers.flatten, done.length + totalByteLength buffers) := by
  induction buffers with
  | nil => intro done; simp [totalByteLength]
  | cons b bs ih =>
    intro done
    have hlen : totalByteLength (b :: bs) = b.length + totalByteLength bs := by
      simp [totalByteLength_eq_sum]
    rw [hlen]
    have hset :
        uint8Set (done ++ List.replicate (b.length + totalByteLength bs) 0) b done.length
          = (done ++ b) ++ List.replicate (totalByteLength bs) 0 := by
      unfold uint8Set
      rw [List.take_left]
      have hdrop :
          (done ++ List.replicate (b.length + totalByteLength bs) 0).drop
            (done.length + b.length)
            = List.replicate (totalByteLength bs) 0 := by
        rw [← List.drop_drop, List.drop_left, List.drop_replicate]
        congr 1
        omega
      rw [hdrop]
    simp only [List.foldl_cons, hset]
    have harg : done.length + b.length = (done ++ b).length := by simp
    rw [harg, ih (done ++ b)]
    simp [Nat.add_assoc]

lemma mergeArrayBuffers_data (buffers : List Buf) :
    (mergeArrayBuffers buffers).data = buffers.flatten := by
  unfold mergeArrayBuffers
  have := merge_fold buffers []
  simp only [List.nil_append, List.length_nil] at this
  simp [this]

lemma mergeArrayBuffers_type (buffers : List Buf) :
    (mergeArrayBuffers buffers).type = "video/mp4" := rfl

/-! ## Occurrence lemmas for the seeded queue -/

lemma occQ_enumFrom (l : List String) :
    ∀ (n i : Nat), occQ (List.enumFrom n l) i
      = if n ≤ i ∧ i < n + l.length then 1 else 0 := by
  induction l with
  | nil =>
    intro n i
    simp only [List.enumFrom, occQ, List.countP_nil, List.length_nil]
    rw [if_neg (by omega)]
  | cons a as ih =>
    intro n i
    rw [List.enumFrom_cons]
    simp only [occQ, List.countP_cons] at *
    rw [ih (n + 1) i]
    by_cases hni : n = i
    · subst hni
      simp only [beq_self_eq_true, if_true]
      have : ¬(n + 1 ≤ n) := by omega
      simp only [List.length_cons]
      rw [if_neg (by omega), if_pos (by omega)]
    · have hbeq : (n == i) = false := by simpa using hni
      simp only [hbeq, Bool.false_eq_true, if_false, List.length_cons]
      by_cases hle : n + 1 ≤ i ∧ i < n + 1 + as.length
      · rw [if_pos hle, if_pos (by omega)]
      · rw [if_neg hle, if_neg (by omega)]

lemma occQ_enum (l : List String) (i : Nat) :
    occQ l.enum i = if i < l.length then 1 else 0 := by
  rw [List.enum_eq_enumFrom, occQ_enumFrom]
  by_cases h : i < l.length
  · rw [if_pos (by omega), if_pos h]
  · rw [if_neg (by omega), if_neg h]

lemma occF_middle (l1 l2 : List (Nat × Nat × String)) (e : Nat × Nat × String) (i : Nat) :
    occF (l1 ++ e :: l2) i = occF (l1 ++ l2) i + (if e.1 = i then 1 else 0) := by
  simp only [occF, List.countP_append, List.countP_cons]
  by_cases h : e.1 = i
  · simp only [h, beq_self_eq_true, if_true]
    omega
  · have hbeq : (e.1 == i) = false := by simpa using h
    simp [hbeq, h]

lemma mem_of_occF_pos {fl : List (Nat × Nat × String)} {i : Nat} (h : 0 < occF fl i) :
    ∃ t ∈ fl, t.1 = i := by
  simp only [occF] at h
  obtain ⟨t, hmem, hp⟩ := List.countP_pos_iff.mp h
  exact ⟨t, hmem, by simpa using hp⟩

/-! ## Sorting lemmas: the selected rendition has maximal bandwidth -/

lemma sortByQualityDesc_mem {l : List (Nat × String)} {e : Nat × String} :
    e ∈ sortByQualityDesc l ↔ e ∈ l :=
  (List.perm_insertionSort qualityGe l).mem_iff

lemma sortByQualityDesc_head_max {l : List (Nat × String)} {x : Nat × String}
    {rest : List (Nat × String)} (h : sortByQualityDesc l = x :: rest) :
    ∀ e ∈ l, e.1 ≤ x.1 := by
  intro e he
  have hsorted : List.Sorted qualityGe (x :: rest) := by
    rw [← h]
    exact List.sorted_insertionSort qualityGe l
  have : e ∈ x :: rest := by
    rw [← h, sortByQualityDesc_mem]
    exact he
  rcases this with _ | hmem
  · exact Nat.le_refl _
  · exact List.rel_of_sorted_cons hsorted e (by assumption)

/-! ## The scheduler invariant -/

lemma getD_none_of_slotFill_zero {bufs : List (Option Buf)} {i : Nat}
    (h : slotFill bufs i = 0) : bufs.getD i none = none := by
  unfold slotFill at h
  by_cases hs : (bufs.getD i none).isSome
  · rw [if_pos hs] at h
    omega
  · rw [if_neg hs] at h
    exact Option.not_isSome_iff_eq_none.mp hs

lemma init_inv (fetch : Oracle) (tsUrls : List String) :
    Inv fetch tsUrls (initState tsUrls) := by
  constructor
  case lenB => simp [initState]
  case qIdx =>
    intro t ht
    simp only [initState] at ht
    by_contra hge
    have h0 : occQ tsUrls.enum t.1 = 0 := by
      rw [occQ_enum, if_neg hge]
    have hpos : 0 < occQ tsUrls.enum t.1 :=
      List.countP_pos_iff.mpr ⟨t, ht, by simp⟩
    omega
  case fIdx =>
    intro t ht
    simp [initState] at ht
  case occLe =>
    intro i hi
    unfold taskOcc
    simp only [initState, occF, List.countP_nil]
    rw [occQ_enum, if_pos hi]
    unfold slotFill
    rw [getD_replicate_none]
    simp
  case occEq =>
    intro _ i hi
    unfold taskOcc
    simp only [initState, occF, List.countP_nil]
    rw [occQ_enum, if_pos hi]
    unfold slotFill
    rw [getD_replicate_none]
    simp
  case cnt =>
    simp only [initState, countFilled]
    rw [List.countP_eq_zero.mpr]
    intro a ha
    rw [List.eq_of_mem_replicate ha]
    simp
  case prog => simp [initState, expectedProgressLog]
  case content =>
    intro i b hb
    rw [initState] at hb
    simp only at hb
    rw [getD_replicate_none] at hb
    exact absurd hb (by simp)

lemma step_inv {fetch : Oracle} {tsUrls : List String} {s t : DLState}
    (hstep : Step fetch tsUrls.length s t) (hinv : Inv fetch tsUrls s) :
    Inv fetch tsUrls t := by
  cases hstep with
  | claim i u q hab hq =>
    have hi : i < tsUrls.length := hinv.qIdx (i, u) (by rw [hq]; exact List.mem_cons_self _ _)
    have key : ∀ j, occQ q j + occF ((i, s.attempts.getD i 0, u) :: s.inflight) j
        + slotFill s.tsBuffers j = taskOcc s j := by
      intro j
      simp only [taskOcc, occQ, occF, List.countP_cons, hq]
      by_cases hij : i = j
      · subst hij
        simp
        omega
      · have hbeq : ((i, u).1 == j) = false := by simpa using hij
        have hbeq' : (((i, s.attempts.getD i 0, u)).1 == j) = false := by simpa using hij
        simp [hbeq, hbeq']
    constructor
    case lenB => exact hinv.lenB
    case qIdx =>
      intro e he
      exact hinv.qIdx e (by rw [hq]; exact List.mem_cons_of_mem _ he)
    case fIdx =>
      intro e he
      rcases List.mem_cons.mp he with h | h
      · rw [h]
        exact hi
      · exact hinv.fIdx e h
    case occLe =>
      intro j hj
      exact le_trans (le_of_eq (key j)) (hinv.occLe j hj)
    case occEq =>
      intro hab' j hj
      exact (key j).trans (hinv.occEq hab' j hj)
    case cnt => exact hinv.cnt
    case prog => exact hinv.prog
    case content => exact hinv.content
  | succeed l1 l2 i k u b hin hf =>
    have hmem : (i, k, u) ∈ s.inflight := by
      rw [hin]
      exact List.mem_append_right _ (List.mem_cons_self _ _)
    have hi : i < tsUrls.length := hinv.fIdx (i, k, u) hmem
    have hilen : i < s.tsBuffers.length := by rw [hinv.lenB]; exact hi
    have hoccF : occF s.inflight i = occF (l1 ++ l2) i + 1 := by
      rw [hin, occF_middle]
      simp
    have hslot0 : slotFill s.tsBuffers i = 0 := by
      have := hinv.occLe i hi
      unfold taskOcc at this
      omega
    have hnone : s.tsBuffers.getD i none = none := getD_none_of_slotFill_zero hslot0
    have key : ∀ j, occQ s.queue j + occF (l1 ++ l2) j
        + slotFill (s.tsBuffers.set i (some b)) j = taskOcc s j := by
      intro j
      by_cases hij : i = j
      · subst hij
        have hs1 : slotFill (s.tsBuffers.set i (some b)) i = 1 := by
          unfold slotFill
          rw [getD_set_self _ _ _ hilen]
          simp
        unfold taskOcc
        rw [hs1, hoccF, hslot0]
        omega
      · have hsame : slotFill (s.tsBuffers.set i (some b)) j = slotFill s.tsBuffers j := by
          unfold slotFill
          rw [getD_set_ne _ _ _ hij]
        have hoccFj : occF s.inflight j = occF (l1 ++ l2) j := by
          rw [hin, occF_middle, if_neg hij]
          simp
        unfold taskOcc
        rw [hsame, hoccFj]
    constructor
    case lenB => simpa using hinv.lenB
    case qIdx => exact hinv.qIdx
    case fIdx =>
      intro e he
      apply hinv.fIdx
      rw [hin]
      rcases List.mem_append.mp he with h | h
      · exact List.mem_append_left _ h
      · exact List.mem_append_right _ (List.mem_cons_of_mem _ h)
    case occLe =>
      intro j hj
      exact le_trans (le_of_eq (key j)) (hinv.occLe j hj)
    case occEq =>
      intro hab' j hj
      exact (key j).trans (hinv.occEq hab' j hj)
    case cnt =>
      have hc := countFilled_set_some s.tsBuffers i b hilen hnone
      show s.downloadedCount + 1 = countFilled (s.tsBuffers.set i (some b))
      rw [hc, hinv.cnt]
    case prog =>
      show s.progressLog ++ _ = expectedProgressLog (s.downloadedCount + 1) tsUrls.length
      rw [hinv.prog]
      simp [expectedProgressLog, List.range_succ]
    case content =>
      intro j b' hb'
      by_cases hij : i = j
      · subst hij
        rw [getD_set_self _ _ _ hilen] at hb'
        exact ⟨k, by rw [hf, hb']⟩
      · rw [getD_set_ne _ _ _ hij] at hb'
        exact hinv.content j b' hb'
  | fail l1 l2 i k u hin hf hab =>
    have hmem : (i, k, u) ∈ s.inflight := by
      rw [hin]
      exact List.mem_append_right _ (List.mem_cons_self _ _)
    have hi : i < tsUrls.length := hinv.fIdx (i, k, u) hmem
    have key : ∀ j, occQ ((i, u) :: s.queue) j + occF (l1 ++ l2) j
        + slotFill s.tsBuffers j = taskOcc s j := by
      intro j
      have hoccF : occF s.inflight j = occF (l1 ++ l2) j + (if i = j then 1 else 0) := by
        rw [hin, occF_middle]
      unfold taskOcc
      rw [hoccF]
      simp only [occQ, List.countP_cons]
      by_cases hij : i = j
      · rw [if_pos hij]
        have hb : (((i, u)).1 == j) = true := by simpa using hij
        rw [hb]
        simp only [if_true]
        omega
      · rw [if_neg hij]
        have hb : (((i, u)).1 == j) = false := by simpa using hij
        rw [hb]
        simp
    constructor
    case lenB => exact hinv.lenB
    case qIdx =>
      intro e he
      rcases List.mem_cons.mp he with h | h
      · rw [h]
        exact hi
      · exact hinv.qIdx e h
    case fIdx =>
      intro e he
      apply hinv.fIdx
      rw [hin]
      rcases List.mem_append.mp he with h | h
      · exact List.mem_append_left _ h
      · exact List.mem_append_right _ (List.mem_cons_of_mem _ h)
    case occLe =>
      intro j hj
      exact le_trans (le_of_eq (key j)) (hinv.occLe j hj)
    case occEq =>
      intro hab' j hj
      exact (key j).trans (hinv.occEq hab' j hj)
    case cnt => exact hinv.cnt
    case prog => exact hinv.prog
    case content => exact hinv.content
  | failAborted l1 l2 i k u hin hf hab =>
    have key : ∀ j, occQ s.queue j + occF (l1 ++ l2) j + slotFill s.tsBuffers j
        ≤ taskOcc s j := by
      intro j
      have hoccF : occF s.inflight j = occF (l1 ++ l2) j + (if i = j then 1 else 0) := by
        rw [hin, occF_middle]
      unfold taskOcc
      rw [hoccF]
      by_cases hij : i = j
      · rw [if_pos hij]
        omega
      · rw [if_neg hij]
        omega
    constructor
    case lenB => exact hinv.lenB
    case qIdx => exact hinv.qIdx
    case fIdx =>
      intro e he
      apply hinv.fIdx
      rw [hin]
      rcases List.mem_append.mp he with h | h
      · exact List.mem_append_left _ h
      · exact List.mem_append_right _ (List.mem_cons_of_mem _ h)
    case occLe =>
      intro j hj
      exact le_trans (key j) (hinv.occLe j hj)
    case occEq =>
      intro hab' j hj
      exact absurd (hab ▸ hab') (by simp)
    case cnt => exact hinv.cnt
    case prog => exact hinv.prog
    case content => exact hinv.content
  | abort hab =>
    constructor
    case lenB => exact hinv.lenB
    case qIdx => exact hinv.qIdx
    case fIdx => exact hinv.fIdx
    case occLe => exact hinv.occLe
    case occEq =>
      intro hab' j hj
      exact absurd hab' (by simp)
    case cnt => exact hinv.cnt
    case prog => exact hinv.prog
    case content => exact hinv.content

/-- Every reachable scheduler state satisfies the invariant. -/
lemma reach_inv {fetch : Oracle} {tsUrls : List String} {s : DLState}
    (h : Reach fetch tsUrls s) : Inv fetch tsUrls s := by
  induction h with
  | init => exact init_inv fetch tsUrls
  | step _ hstep ih => exact step_inv hstep ih

/-! ## Concrete executions of the example scenario -/

/-- The interleaving claim 0, claim 1, fail 0, succeed 1, claim 0,
succeed 0 reaches `exFinal`: segment 0 fails once and is retried. -/
lemma exReach : Reach exFetch exUrls exFinal :=
  Reach.step (Reach.step (Reach.step (Reach.step (Reach.step (Reach.step Reach.init
    (Step.claim _ 0 "http://h/p/a.ts" [(1, "http://h/p/b.ts")] rfl rfl))
    (Step.claim _ 1 "http://h/p/b.ts" [] rfl rfl))
    (Step.fail _ [(1, 0, "http://h/p/b.ts")] [] 0 0 "http://h/p/a.ts" rfl rfl rfl))
    (Step.succeed _ [] [] 1 0 "http://h/p/b.ts" [8, 9] rfl rfl))
    (Step.claim _ 0 "http://h/p/a.ts" [] rfl rfl))
    (Step.succeed _ [] [] 0 1 "http://h/p/a.ts" [7] rfl rfl)

/-- The interleaving claim 0, claim 1, fail 0, abort reaches
`exMidAborted`. -/
lemma exReachMid : Reach exFetch exUrls exMidAborted :=
  Reach.step (Reach.step (Reach.step (Reach.step Reach.init
    (Step.claim _ 0 "http://h/p/a.ts" [(1, "http://h/p/b.ts")] rfl rfl))
    (Step.claim _ 1 "http://h/p/b.ts" [] rfl rfl))
    (Step.fail _ [(1, 0, "http://h/p/b.ts")] [] 0 0 "http://h/p/a.ts" rfl rfl rfl))
    (Step.abort _ rfl)

/-- The fetch of segment 1, already in flight at the abort, still lands. -/
lemma exStepLate : Step exFetch exUrls.length exMidAborted exAborted :=
  Step.succeed _ [] [] 1 0 "http://h/p/b.ts" [8, 9] rfl rfl

/-- Continuing `exReachMid` with the late success reaches `exAborted`. -/
lemma exReachAborted : Reach exFetch exUrls exAborted :=
  Reach.step exReachMid exStepLate

/-- In the example oracle the bytes of a successful fetch depend only on
the segment index, never on the attempt number. -/
lemma exFetch_consistent :
    ∀ i k k' b b', exFetch i k = some b → exFetch i k' = some b' → b = b' := by
  intro i k k' b b' h h'
  rcases i with _ | _ | i <;> rcases k with _ | _ | k <;> rcases k' with _ | _ | k' <;>
    simp_all [exFetch]

/-! ## downloadPlaylist loop lemmas -/

lemma dpRun_failed {exec : Nat → DVResult} {n i : Nat} {m : String}
    (acc : List (Blob × String)) (h : i < n) (hf : exec i = DVResult.failed m) :
    dpRun exec n i acc = DPResult.failed ("下载合集失败: " ++ m) acc := by
  rw [dpRun]
  simp [h, hf]

lemma dpRun_silent {exec : Nat → DVResult} {n i : Nat}
    (acc : List (Blob × String)) (h : i < n) (hs : exec i = DVResult.silent) :
    dpRun exec n i acc = DPResult.silent acc := by
  rw [dpRun]
  simp [h, hs]

lemma dpRun_saved {exec : Nat → DVResult} {n i : Nat} {b : Blob} {fn : String}
    (acc : List (Blob × String)) (h : i < n) (hs : exec i = DVResult.saved b fn) :
    dpRun exec n i acc = dpRun exec n (i + 1) (acc ++ [(b, fn)]) := by
  rw [dpRun]
  simp [h, hs]

/-- Running the loop across a block of episodes that all save delivers
exactly their outputs, in episode order. -/
lemma dpRun_saved_block (exec : Nat → DVResult) (n : Nat) (bs : Nat → Blob)
    (fns : Nat → String) :
    ∀ (len st : Nat) (acc : List (Blob × String)),
      (∀ j, st ≤ j → j < st + len → exec j = DVResult.saved (bs j) (fns j)) →
      st + len ≤ n →
      dpRun exec n st acc
        = dpRun exec n (st + len) (acc ++ (List.range' st len).map fun j => (bs j, fns j)) := by
  intro len
  induction len with
  | zero =>
    intro st acc _ _
    simp
  | succ len ih =>
    intro st acc hsaved hle
    have hst : exec st = DVResult.saved (bs st) (fns st) :=
      hsaved st (Nat.le_refl st) (by omega)
    rw [dpRun_saved acc (by omega) hst]
    have := ih (st + 1) (acc ++ [(bs st, fns st)])
      (fun j hj hj' => hsaved j (by omega) (by omega)) (by omega)
    rw [this, List.range'_succ]
    simp [List.append_assoc]
    congr 1
    omega

/-! ## finishDownload case lemmas -/

lemma finishDownload_complete {s : DLState} (fn : String)
    (h : s.tsBuffers.all Option.isSome = true) :
    finishDownload fn s
      = DVResult.saved (mergeArrayBuffers (s.tsBuffers.map bufOrEmpty)) fn := by
  unfold finishDownload
  rw [if_pos h]

lemma finishDownload_incomplete {s : DLState} (fn : String)
    (h : s.tsBuffers.all Option.isSome = false) (hab : s.aborted = false) :
    finishDownload fn s = DVResult.failed "下载视频失败: 部分ts分片下载失败" := by
  unfold finishDownload
  rw [if_neg (by simp [h]), if_neg (by simp [hab])]

lemma finishDownload_abortedIncomplete {s : DLState} (fn : String)
    (h : s.tsBuffers.all Option.isSome = false) (hab : s.aborted = true) :
    finishDownload fn s = DVResult.silent := by
  unfold finishDownload
  rw [if_neg (by simp [h]), if_pos hab]

/-! ## Claim theorems -/

/-- **C3**: `mergeArrayBuffers` produces a blob whose byte content is the
concatenation of the buffers in index (array) order, whose length is the
sum of the individual buffer lengths, tagged `video/mp4`; and because each
success is stored at its task's fixed index, any two completed scheduler
runs over a network delivering fixed per-segment bytes assemble the same
blob, regardless of worker interleaving. -/
theorem mergeArrayBuffers_concat_ordered :
    (∀ buffers : List Buf,
      (mergeArrayBuffers buffers).data = buffers.flatten ∧
      (mergeArrayBuffers buffers).data.length = (buffers.map List.length).sum ∧
      (mergeArrayBuffers buffers).type = "video/mp4") ∧
    (∀ (fetch : Oracle) (tsUrls : List String) (s₁ s₂ : DLState),
      (∀ i k k' b b', fetch i k = some b → fetch i k' = some b' → b = b') →
      Reach fetch tsUrls s₁ → Reach fetch tsUrls s₂ →
      s₁.tsBuffers.all Option.isSome = true → s₂.tsBuffers.all Option.isSome = true →
      mergeArrayBuffers (s₁.tsBuffers.map bufOrEmpty)
        = mergeArrayBuffers (s₂.tsBuffers.map bufOrEmpty)) := by
  constructor
  · intro buffers
    refine ⟨mergeArrayBuffers_data buffers, ?_, rfl⟩
    rw [mergeArrayBuffers_data buffers, List.length_flatten]
  · intro fetch tsUrls s₁ s₂ hcons h1 h2 ha1 ha2
    have i1 := reach_inv h1
    have i2 := reach_inv h2
    have hbuf : s₁.tsBuffers = s₂.tsBuffers := by
      apply eq_of_getD_eq _ _ (by rw [i1.lenB, i2.lenB])
      intro i hi
      obtain ⟨b1, hb1⟩ := all_isSome_getD _ ha1 hi
      have hi2 : i < s₂.tsBuffers.length := by
        rw [i2.lenB]
        rw [i1.lenB] at hi
        exact hi
      obtain ⟨b2, hb2⟩ := all_isSome_getD _ ha2 hi2
      obtain ⟨k1, hk1⟩ := i1.content i b1 hb1
      obtain ⟨k2, hk2⟩ := i2.content i b2 hb2
      rw [hb1, hb2, hcons i k1 k2 b1 b2 hk1 hk2]
    rw [hbuf]

theorem mergeArrayBuffers_concat_ordered_witness :
    (mergeArrayBuffers [[1], [2, 3]]).data = [[1], [2, 3]].flatten ∧
    mergeArrayBuffers (exFinal.tsBuffers.map bufOrEmpty)
      = mergeArrayBuffers (exFinal.tsBuffers.map bufOrEmpty) :=
  ⟨(mergeArrayBuffers_concat_ordered.1 [[1], [2, 3]]).1,
   mergeArrayBuffers_concat_ordered.2 exFetch exUrls exFinal exFinal exFetch_consistent
     exReach exReach rfl rfl⟩

/-- **C5** (counterexample to the claim as stated): the first resolution
rule fires on any line starting with the four characters `http`, not only
on absolute URLs. The relative segment line `httpx.ts` is neither an
absolute URL (it contains no `://`) nor an absolute path, so the claimed
three rules would resolve it against the document directory, but the code
returns it unchanged. -/
theorem resolveUrl_absolute_url_counterexample :
    resolveUrl "http://h/a/b/index.m3u8" "httpx.ts" = "httpx.ts" ∧
    specResolveUrl "http://h/a/b/index.m3u8" "httpx.ts" = "http://h/a/b/httpx.ts" ∧
    resolveUrl "http://h/a/b/index.m3u8" "httpx.ts"
      ≠ specResolveUrl "http://h/a/b/index.m3u8" "httpx.ts" ∧
    segmentUrls "http://h/a/b/index.m3u8" ["httpx.ts"] = ["httpx.ts"] := by
  decide

/-- **C5** (amended): every non-blank, non-comment line of a media playlist
is resolved by exactly three rules keyed on the line's first characters: a
line starting with `http` is returned unchanged; otherwise a line starting
with `/` is resolved against the document's scheme+host; any other line is
resolved against the document's directory (the URL up to and including its
last `/`). In particular `c.ts` ↦ `http://h/a/b/c.ts`,
`/c.ts` ↦ `http://h/c.ts`, and `http://other/c.ts` is unchanged. -/
theorem resolveUrl_three_rules (docUrl line : String) :
    (jsStartsWith line "http" = true → resolveUrl docUrl line = line) ∧
    (jsStartsWith line "http" = false → jsStartsWith line "/" = true →
      resolveUrl docUrl line = schemeHost docUrl ++ line) ∧
    (jsStartsWith line "http" = false → jsStartsWith line "/" = false →
      resolveUrl docUrl line = lastSlashPrefix docUrl ++ line) ∧
    (line ≠ "" → jsStartsWith line "#" = false → jsTrim line = line →
      segmentUrls docUrl [line] = [resolveUrl docUrl line]) ∧
    resolveUrl "http://h/a/b/index.m3u8" "c.ts" = "http://h/a/b/c.ts" ∧
    resolveUrl "http://h/a/b/index.m3u8" "/c.ts" = "http://h/c.ts" ∧
    resolveUrl "http://h/a/b/index.m3u8" "http://other/c.ts" = "http://other/c.ts" := by
  refine ⟨?_, ?_, ?_, ?_, by decide, by decide, by decide⟩
  · intro h
    unfold resolveUrl
    rw [if_pos h]
  · intro h1 h2
    unfold resolveUrl
    rw [if_neg (by simp [h1]), if_pos h2]
  · intro h1 h2
    unfold resolveUrl
    rw [if_neg (by simp [h1]), if_neg (by simp [h2])]
  · intro h1 h2 h3
    unfold segmentUrls
    simp [h3, h1, h2]

theorem resolveUrl_three_rules_witness :
    resolveUrl "http://h/a/b/index.m3u8" "c.ts"
      = lastSlashPrefix "http://h/a/b/index.m3u8" ++ "c.ts" ∧
    resolveUrl "http://h/a/b/index.m3u8" "/c.ts"
      = schemeHost "http://h/a/b/index.m3u8" ++ "/c.ts" ∧
    resolveUrl "http://h/a/b/index.m3u8" "http://other/c.ts" = "http://other/c.ts" ∧
    segmentUrls "http://h/a/b/index.m3u8" ["c.ts"]
      = [resolveUrl "http://h/a/b/index.m3u8" "c.ts"] :=
  ⟨(resolveUrl_three_rules "http://h/a/b/index.m3u8" "c.ts").2.2.1 (by decide) (by decide),
   (resolveUrl_three_rules "http://h/a/b/index.m3u8" "/c.ts").2.1 (by decide) (by decide),
   (resolveUrl_three_rules "http://h/a/b/index.m3u8" "http://other/c.ts").1 (by decide),
   (resolveUrl_three_rules "http://h/a/b/index.m3u8" "c.ts").2.2.2.1 (by decide) (by decide)
     (by decide)⟩

/-- **C10**: `processImageUrl` returns the configured proxy base followed by
the percent-encoded original URL exactly when a proxy base is configured
and the URL is nonempty, and the original URL unchanged otherwise; an
explicitly false `enableImageProxy` flag disables the proxy, a user-set
`imageProxyUrl` takes precedence over `RUNTIME_CONFIG.IMAGE_PROXY`, and an
absent flag falls back to the runtime default silently. -/
theorem processImageUrl_proxy_rules :
    (∀ (e : ProxyEnv) (url p : String), url ≠ "" → getImageProxyUrl e = some p →
      processImageUrl e url = p ++ encodeURIComponent url) ∧
    (∀ (e : ProxyEnv) (url : String), getImageProxyUrl e = none →
      processImageUrl e url = url) ∧
    (∀ e : ProxyEnv, processImageUrl e "" = "") ∧
    (∀ e : ProxyEnv, e.enableImageProxy = some false → getImageProxyUrl e = none) ∧
    (∀ (e : ProxyEnv) (s : String), e.hasWindow = true →
      e.enableImageProxy ≠ some false → e.imageProxyUrl = some s → jsTrim s ≠ "" →
      getImageProxyUrl e = some (jsTrim s)) ∧
    (∀ (e : ProxyEnv) (s : String), e.hasWindow = true → e.enableImageProxy = none →
      e.imageProxyUrl = none → e.runtimeImageProxy = some s → jsTrim s ≠ "" →
      getImageProxyUrl e = some (jsTrim s)) := by
  refine ⟨?_, ?_, ?_, ?_, ?_, ?_⟩
  · intro e url p hu hp
    unfold processImageUrl
    rw [if_neg hu, hp]
  · intro e url hp
    unfold processImageUrl
    rw [hp]
    simp
  · intro e
    unfold processImageUrl
    rw [if_pos rfl]
  · intro e h
    unfold getImageProxyUrl
    by_cases hw : e.hasWindow = false
    · rw [if_pos hw]
    · rw [if_neg hw, h]
  · intro e s hw hen hloc htrim
    obtain ⟨w, en, loc, run⟩ := e
    simp only at hw hen hloc htrim
    subst hw
    subst hloc
    unfold getImageProxyUrl
    rcases en with _ | b
    · simp [htrim]
    · rcases b with _ | _
      · exact absurd rfl hen
      · simp [htrim]
  · intro e s hw hen hloc hrun htrim
    obtain ⟨w, en, loc, run⟩ := e
    simp only at hw hen hloc hrun htrim
    subst hw
    subst hen
    subst hloc
    subst hrun
    have hs : s ≠ "" := by
      intro h
      apply htrim
      rw [h]
      rfl
    unfold getImageProxyUrl
    simp [hs, htrim]

theorem processImageUrl_proxy_rules_witness :
    processImageUrl ⟨true, none, some " https://img/?u= ", some "unused"⟩ "http://a/b 1.png"
      = "https://img/?u=" ++ encodeURIComponent "http://a/b 1.png" ∧
    processImageUrl ⟨true, some false, some "https://img/?u=", none⟩ "http://a/b.png"
      = "http://a/b.png" ∧
    getImageProxyUrl ⟨true, some false, some "https://img/?u=", none⟩ = none ∧
    getImageProxyUrl ⟨true, none, some " https://img/?u= ", some "unused"⟩
      = some (jsTrim " https://img/?u= ") ∧
    getImageProxyUrl ⟨true, none, none, some "https://srv/?u="⟩
      = some (jsTrim "https://srv/?u=") :=
  ⟨processImageUrl_proxy_rules.1 ⟨true, none, some " https://img/?u= ", some "unused"⟩
      "http://a/b 1.png" "https://img/?u=" (by decide) (by decide),
   processImageUrl_proxy_rules.2.1 ⟨true, some false, some "https://img/?u=", none⟩
      "http://a/b.png" (processImageUrl_proxy_rules.2.2.2.1 _ rfl),
   processImageUrl_proxy_rules.2.2.2.1 ⟨true, some false, some "https://img/?u=", none⟩ rfl,
   processImageUrl_proxy_rules.2.2.2.2.1 ⟨true, none, some " https://img/?u= ", some "unused"⟩
      " https://img/?u= " rfl (by simp) rfl (by decide),
   processImageUrl_proxy_rules.2.2.2.2.2 ⟨true, none, none, some "https://srv/?u="⟩
      "https://srv/?u=" rfl rfl rfl rfl (by decide)⟩

/-- **C4**: on a multi-rendition (master) playlist, `parseM3u8` selects,
among the rendition entries it parsed, one whose bandwidth value is
maximal (the head of the stable descending sort, which is itself a parsed
entry), and recursively resolves that rendition's playlist URL. -/
theorem parseM3u8_selects_max_bandwidth
    (ft : String → Option String) (fuel : Nat) (url text : String)
    (hft : ft url = some text)
    (hmaster : containsSub text "#EXT-X-STREAM-INF" = true)
    (best : Nat × String) (rest : List (Nat × String))
    (hsort : sortByQualityDesc (collectRenditions url (jsSplitLines text)) = best :: rest) :
    best ∈ collectRenditions url (jsSplitLines text) ∧
    (∀ e ∈ collectRenditions url (jsSplitLines text), e.1 ≤ best.1) ∧
    parseM3u8 ft (fuel + 1) url =
      (match parseM3u8 ft fuel best.2 with
       | Except.error e => Except.error ("解析m3u8失败: " ++ e)
       | Except.ok r => Except.ok r) := by
  refine ⟨?_, sortByQualityDesc_head_max hsort, ?_⟩
  · rw [← sortByQualityDesc_mem, hsort]
    exact List.mem_cons_self _ _
  · rw [parseM3u8]
    rw [hft]
    simp only [hmaster, if_true, hsort]

theorem parseM3u8_selects_max_bandwidth_witness :
    (1500000, "http://cdn/p/index.m3u8")
        ∈ collectRenditions "http://cdn/master.m3u8" (jsSplitLines exMasterText) ∧
    parseM3u8 exMasterFt 2 "http://cdn/master.m3u8"
      = Except.ok ["http://cdn/p/a.ts", "http://cdn/p/b.ts"] := by
  have h := parseM3u8_selects_max_bandwidth exMasterFt 1 "http://cdn/master.m3u8"
    exMasterText (by decide) (by decide) (1500000, "http://cdn/p/index.m3u8")
    [(500000, "http://cdn/low/index.m3u8")] (by decide)
  refine ⟨h.1, ?_⟩
  rw [h.2.2]
  rfl

/-- **C1**: in every reachable scheduler state the completed count never
exceeds the task count; every segment index lives in exactly one of the
queue, the in-flight set, and its buffer slot (at most one once the signal
is aborted, since an aborted worker may drop its task); when every slot is
filled, each task occupies exactly its one index slot, holding bytes some
fetch of that index returned; and a failed fetch (signal not aborted) is
pushed back onto the *front* of the queue by a legal step at any attempt
number — there is no retry cap. -/
theorem scheduler_retry_exactly_once (fetch : Oracle) (tsUrls : List String) :
    (∀ s : DLState, Reach fetch tsUrls s → s.downloadedCount ≤ tsUrls.length) ∧
    (∀ s : DLState, Reach fetch tsUrls s → ∀ i, i < tsUrls.length →
      taskOcc s i ≤ 1 ∧ (s.aborted = false → taskOcc s i = 1)) ∧
    (∀ s : DLState, Reach fetch tsUrls s → s.tsBuffers.all Option.isSome = true →
      ∀ i, i < tsUrls.length →
        occQ s.queue i = 0 ∧ occF s.inflight i = 0 ∧
        ∃ b k, s.tsBuffers.getD i none = some b ∧ fetch i k = some b) ∧
    (∀ (s : DLState) (l1 l2 : List (Nat × Nat × String)) (i k : Nat) (u : String),
      s.inflight = l1 ++ (i, k, u) :: l2 → fetch i k = none → s.aborted = false →
      Step fetch tsUrls.length s
        { s with inflight := l1 ++ l2, queue := (i, u) :: s.queue }) := by
  refine ⟨?_, ?_, ?_, ?_⟩
  · intro s hr
    have inv := reach_inv hr
    rw [inv.cnt]
    exact le_trans (countFilled_le_length _) (le_of_eq inv.lenB)
  · intro s hr i hi
    have inv := reach_inv hr
    exact ⟨inv.occLe i hi, fun hab => inv.occEq hab i hi⟩
  · intro s hr hall i hi
    have inv := reach_inv hr
    have hilen : i < s.tsBuffers.length := by rw [inv.lenB]; exact hi
    obtain ⟨b, hb⟩ := all_isSome_getD _ hall hilen
    have hslot : slotFill s.tsBuffers i = 1 := by
      unfold slotFill
      rw [hb]
      simp
    have hle := inv.occLe i hi
    unfold taskOcc at hle
    obtain ⟨k, hk⟩ := inv.content i b hb
    exact ⟨by omega, by omega, b, k, hb, hk⟩
  · intro s l1 l2 i k u hin hf hab
    exact Step.fail s l1 l2 i k u hin hf hab

theorem scheduler_retry_exactly_once_witness :
    exFinal.downloadedCount ≤ exUrls.length ∧
    taskOcc exFinal 0 = 1 ∧
    occQ exFinal.queue 0 = 0 ∧
    Step exFetch exUrls.length exMid2
      { exMid2 with inflight := [(1, 0, "http://h/p/b.ts")], queue := [(0, "http://h/p/a.ts")] } :=
  ⟨(scheduler_retry_exactly_once exFetch exUrls).1 exFinal exReach,
   ((scheduler_retry_exactly_once exFetch exUrls).2.1 exFinal exReach 0 (by decide)).2 rfl,
   ((scheduler_retry_exactly_once exFetch exUrls).2.2.1 exFinal exReach rfl 0 (by decide)).1,
   (scheduler_retry_exactly_once exFetch exUrls).2.2.2 exMid2 [(1, 0, "http://h/p/b.ts")] []
     0 0 "http://h/p/a.ts" rfl rfl rfl⟩

/-- **C2**: once the abort signal is set no step starts a new fetch (every
worker checks the signal before claiming a queue item); a terminal
scheduler state with the signal set never yields a thrown error from
`downloadVideo`'s tail (silent return, or a save if everything already
completed); the pre-scheduler failure paths of `downloadVideo` return
silently when the signal is aborted; and a series run whose current
episode returns silently ends with `downloadPlaylist` returning normally
with the silent outcome. -/
theorem abort_is_silent (fetch : Oracle) (tsUrls : List String) :
    (∀ s t : DLState, s.aborted = true → Step fetch tsUrls.length s t →
      t.fetchesStarted = s.fetchesStarted) ∧
    (∀ (fn : String) (s : DLState) (msg : String), Terminal s → s.aborted = true →
      finishDownload fn s ≠ DVResult.failed msg) ∧
    (∀ (parse : Except String (List String)) (fn : String) (r : DVResult) (n : Nat),
      DVExec fetch parse fn true r n →
      (∀ ts, parse = Except.ok ts → ts = []) →
      r = DVResult.silent) ∧
    (∀ (exec : Nat → DVResult) (episodes : List String) (i : Nat)
      (bs : Nat → Blob) (fns : Nat → String),
      i < episodes.length →
      (∀ j, j < i → exec j = DVResult.saved (bs j) (fns j)) →
      exec i = DVResult.silent →
      downloadPlaylistRun exec episodes
        = DPResult.silent ((List.range' 0 i).map fun j => (bs j, fns j))) := by
  refine ⟨?_, ?_, ?_, ?_⟩
  · intro s t hab hstep
    cases hstep with
    | claim i u q hab' hq => rw [hab'] at hab; exact absurd hab Bool.false_ne_true
    | succeed l1 l2 i k u b hin hf => rfl
    | fail l1 l2 i k u hin hf hab' => rw [hab'] at hab
    | failAborted l1 l2 i k u hin hf hab' => rfl
    | abort hab' => rw [hab'] at hab
  · intro fn s msg ht hab
    by_cases hall : s.tsBuffers.all Option.isSome = true
    · rw [finishDownload_complete fn hall]
      simp
    · rw [finishDownload_abortedIncomplete fn (by simpa using hall) hab]
      simp
  · intro parse fn r n hexec hok
    cases hexec with
    | parseError msg h => rfl
    | emptyPlaylist h => rfl
    | run h hne hr => exact absurd (hok _ h) hne
  · intro exec episodes i bs fns hi hprev hsilent
    unfold downloadPlaylistRun
    have hblock := dpRun_saved_block exec episodes.length bs fns i 0 []
      (fun j _ hj' => hprev j (by omega)) (by omega)
    rw [hblock]
    simp only [List.nil_append, Nat.zero_add]
    exact dpRun_silent _ hi hsilent

theorem abort_is_silent_witness :
    exAborted.fetchesStarted = exMidAborted.fetchesStarted ∧
    finishDownload "v.mp4" exAborted ≠ DVResult.failed "下载视频失败: 部分ts分片下载失败" ∧
    DVResult.silent = DVResult.silent ∧
    downloadPlaylistRun exExecSilent ["http://cdn/e1.m3u8", "http://cdn/e2.m3u8"]
      = DPResult.silent [(⟨[7, 8, 9], "video/mp4"⟩, "Show - 第1集.mp4")] := by
  refine ⟨(abort_is_silent exFetch exUrls).1 exMidAborted exAborted rfl exStepLate,
    (abort_is_silent exFetch exUrls).2.1 "v.mp4" exAborted _ ⟨rfl, Or.inr rfl⟩ rfl,
    (abort_is_silent exFetch exUrls).2.2.1 (Except.ok []) "v.mp4" _ 0
      (DVExec.emptyPlaylist rfl) (fun ts h => by injection h with h; exact h.symm), ?_⟩
  have h := (abort_is_silent exFetch exUrls).2.2.2 exExecSilent
    ["http://cdn/e1.m3u8", "http://cdn/e2.m3u8"] 1
    (fun _ => ⟨[7, 8, 9], "video/mp4"⟩) (fun _ => "Show - 第1集.mp4") (by decide)
    (by
      intro j hj
      have h0 : j = 0 := by omega
      subst h0
      rfl)
    rfl
  rw [h]
  rfl

/-- **C6**: when playlist resolution yields zero segment URLs and the signal
is not aborted, `downloadVideo` fails with the empty-playlist error
`'未找到ts分片'` (wrapped by the outer catch), starts zero segment fetches,
and never reaches the output sink. -/
theorem downloadVideo_empty_playlist
    (fetch : Oracle) (ftText : String → Option String) (fuel : Nat) (url fn : String)
    (r : DVResult) (n : Nat)
    (hparse : parseM3u8 ftText fuel url = Except.ok [])
    (hexec : DVExec fetch (parseM3u8 ftText fuel url) fn false r n) :
    r = DVResult.failed "下载视频失败: 未找到ts分片" ∧ n = 0 ∧
    ∀ (blob : Blob) (fname : String), r ≠ DVResult.saved blob fname := by
  cases hexec with
  | parseError msg h =>
    rw [hparse] at h
    exact absurd h (by simp)
  | emptyPlaylist h =>
    exact ⟨rfl, rfl, by simp⟩
  | run h hne hr =>
    rw [hparse] at h
    injection h with h
    exact absurd h.symm hne

theorem downloadVideo_empty_playlist_witness :
    DVResult.failed "下载视频失败: 未找到ts分片"
      = DVResult.failed "下载视频失败: 未找到ts分片" ∧ (0 : Nat) = 0 :=
  ⟨(downloadVideo_empty_playlist exFetch exEmptyFt 1 "http://cdn/e.m3u8" "v.mp4" _ _
      rfl (DVExec.emptyPlaylist rfl)).1,
   (downloadVideo_empty_playlist exFetch exEmptyFt 1 "http://cdn/e.m3u8" "v.mp4" _ _
      rfl (DVExec.emptyPlaylist rfl)).2.1⟩

/-- **C7**: `downloadPlaylist` processes episodes strictly in order; if the
first `i` episodes save and episode `i` fails for a reason other than
cancellation, the whole series aborts with the wrapped download-failed
error, the sink is never invoked for the failing episode, and the outputs
already delivered are exactly those of the earlier episodes, in order. -/
theorem downloadPlaylist_series_abort
    (exec : Nat → DVResult) (episodes : List String) (i : Nat)
    (bs : Nat → Blob) (fns : Nat → String) (m : String)
    (hi : i < episodes.length)
    (hprev : ∀ j, j < i → exec j = DVResult.saved (bs j) (fns j))
    (hfail : exec i = DVResult.failed m) :
    downloadPlaylistRun exec episodes
      = DPResult.failed ("下载合集失败: " ++ m)
          ((List.range' 0 i).map fun j => (bs j, fns j)) := by
  unfold downloadPlaylistRun
  have hblock := dpRun_saved_block exec episodes.length bs fns i 0 []
    (fun j _ hj' => hprev j (by omega)) (by omega)
  rw [hblock]
  simp only [List.nil_append, Nat.zero_add]
  exact dpRun_failed _ hi hfail

theorem downloadPlaylist_series_abort_witness :
    downloadPlaylistRun exExecFail ["http://cdn/e1.m3u8", "http://cdn/e2.m3u8"]
      = DPResult.failed "下载合集失败: 下载视频失败: 部分ts分片下载失败"
          [(⟨[7, 8, 9], "video/mp4"⟩, "Show - 第1集.mp4")] := by
  rw [downloadPlaylist_series_abort exExecFail _ 1 (fun _ => ⟨[7, 8, 9], "video/mp4"⟩)
    (fun _ => "Show - 第1集.mp4") "下载视频失败: 部分ts分片下载失败" (by decide)
    (by
      intro j hj
      have h0 : j = 0 := by omega
      subst h0
      rfl)
    rfl]
  rfl

/-- **C8**: in every reachable scheduler state the progress-callback log is
exactly one entry per successful fetch, in order: the `j`-th call received
`(round((j+1)·100/total), j+1, total)`; and the completed count equals the
number of filled buffer slots, so it is incremented exactly once per
successful fetch. -/
theorem progress_log_formula (fetch : Oracle) (tsUrls : List String) :
    ∀ s : DLState, Reach fetch tsUrls s →
      s.progressLog = expectedProgressLog s.downloadedCount tsUrls.length ∧
      s.downloadedCount = countFilled s.tsBuffers := by
  intro s hr
  have inv := reach_inv hr
  exact ⟨inv.prog, inv.cnt⟩

theorem progress_log_formula_witness :
    exFinal.progressLog = expectedProgressLog exFinal.downloadedCount exUrls.length ∧
    expectedProgressLog 2 2 = [(50, 1, 2), (100, 2, 2)] :=
  ⟨(progress_log_formula exFetch exUrls exFinal exReach).1, by decide⟩

/-- **C9**: the sink is reached only from a terminal state whose every
buffer slot is filled — the saved blob is then the merge of the slots in
index order under the requested filename; if any slot is empty the
explicit check fails the download with `'部分ts分片下载失败'` when the
signal is not aborted, and stays silent when it is, so a partially
assembled stream is never delivered. -/
theorem sink_only_when_complete (fetch : Oracle) (tsUrls : List String) (fn : String) :
    (∀ (s : DLState) (blob : Blob) (fname : String), Reach fetch tsUrls s → Terminal s →
      finishDownload fn s = DVResult.saved blob fname →
      s.tsBuffers.all Option.isSome = true ∧
      blob = mergeArrayBuffers (s.tsBuffers.map bufOrEmpty) ∧ fname = fn) ∧
    (∀ s : DLState, s.tsBuffers.all Option.isSome = false → s.aborted = false →
      finishDownload fn s = DVResult.failed "下载视频失败: 部分ts分片下载失败") ∧
    (∀ s : DLState, s.tsBuffers.all Option.isSome = false → s.aborted = true →
      finishDownload fn s = DVResult.silent) := by
  refine ⟨?_, ?_, ?_⟩
  · intro s blob fname hr ht heq
    by_cases hall : s.tsBuffers.all Option.isSome = true
    · rw [finishDownload_complete fn hall] at heq
      injection heq with h1 h2
      exact ⟨hall, h1.symm, h2.symm⟩
    · by_cases hab : s.aborted = true
      · rw [finishDownload_abortedIncomplete fn (by simpa using hall) hab] at heq
        exact absurd heq (by simp)
      · rw [finishDownload_incomplete fn (by simpa using hall) (by simpa using hab)] at heq
        exact absurd heq (by simp)
  · intro s h hab
    exact finishDownload_incomplete fn h hab
  · intro s h hab
    exact finishDownload_abortedIncomplete fn h hab

theorem sink_only_when_complete_witness :
    (exFinal.tsBuffers.all Option.isSome = true ∧
      Blob.mk [7, 8, 9] "video/mp4" = mergeArrayBuffers (exFinal.tsBuffers.map bufOrEmpty) ∧
      "v.mp4" = "v.mp4") ∧
    finishDownload "v.mp4" (initState exUrls)
      = DVResult.failed "下载视频失败: 部分ts分片下载失败" ∧
    finishDownload "v.mp4" exMidAborted = DVResult.silent :=
  ⟨(sink_only_when_complete exFetch exUrls "v.mp4").1 exFinal ⟨[7, 8, 9], "video/mp4"⟩
      "v.mp4" exReach ⟨rfl, Or.inl rfl⟩ rfl,
   (sink_only_when_complete exFetch exUrls "v.mp4").2.1 (initState exUrls) rfl rfl,
   (sink_only_when_complete exFetch exUrls "v.mp4").2.2 exMidAborted rfl rfl⟩

end MoonTV
